import Mathlib

/-!
Verification development for the mywellness2tcx converter (`src/App.tsx`).

The TypeScript source is shallowly embedded: JavaScript numbers are modelled
as `ℚ` (exact arithmetic), JS values as a `Json` inductive, `undefined`able
values as `Option`, and the two encoders as pure Lean functions.  The
wall-clock (`Date.now()` / `new Date()`) is passed in explicitly as a `now`
parameter (milliseconds since epoch), making the documented nondeterminism
an explicit input.  JS runtime builtins (`Number(string)`,
`new Date(string).getTime()`, `String.prototype.toLowerCase`,
`String.prototype.includes`) are modelled by small executable Lean functions
over character lists.
-/

namespace MW2TCX

/-- `Math.round` on the ℚ model of JS numbers: round half toward +∞. -/
def jsRound (q : ℚ) : ℤ := ⌊q + 1/2⌋

/-- Lower-case a single ASCII character (model of the relevant part of
`toLowerCase`; the source only compares against ASCII keywords). -/
def charLower (c : Char) : Char :=
  if 'A' ≤ c ∧ c ≤ 'Z' then Char.ofNat (c.toNat + 32) else c

/-- `a.isPrefixOf b` on char lists (helper for the `includes` model). -/
def prefixOfB : List Char → List Char → Bool
  | [], _ => true
  | _ :: _, [] => false
  | a :: as, b :: bs => a = b && prefixOfB as bs

/-- Model of `String.prototype.includes` over char lists. -/
def infixOfB (needle : List Char) : List Char → Bool
  | [] => prefixOfB needle []
  | c :: rest => prefixOfB needle (c :: rest) || infixOfB needle rest

/-- `hay.toLowerCase().includes(needle)` for ASCII keyword `needle`. -/
def jsIncludes (hay : String) (needle : String) : Bool :=
  infixOfB needle.data (hay.data.map charLower)

/-- Split a char list on a separator character. -/
def splitOnChar (c : Char) : List Char → List (List Char)
  | [] => [[]]
  | x :: xs =>
    let r := splitOnChar c xs
    if x = c then [] :: r
    else
      match r with
      | [] => [[x]]
      | h :: t => (x :: h) :: t

/-- Decimal digit run to a natural number; `none` if empty or non-digit. -/
def decDigits : List Char → Option ℕ
  | [] => none
  | cs =>
    if cs.all (·.isDigit) then
      some (cs.foldl (fun acc c => acc * 10 + (c.toNat - 48)) 0)
    else none

def isJsWhitespace (c : Char) : Bool :=
  c = ' ' || c = '\t' || c = '\n' || c = '\r'

/-- Model of the JS `Number(string)` coercion (`none` plays NaN): optional
sign, decimal digits, optional fraction; whitespace-only coerces to `0`.
Exponent/hex forms are out of scope for this source's data. -/
def jsStringToNumber (s : String) : Option ℚ :=
  let cs := (s.data.dropWhile isJsWhitespace).reverse.dropWhile isJsWhitespace |>.reverse
  if cs = [] then some 0
  else
    let (sgn, body) : ℚ × List Char :=
      match cs with
      | '-' :: r => (-1, r)
      | '+' :: r => (1, r)
      | r => (1, r)
    match splitOnChar '.' body with
    | [intPart] => (decDigits intPart).map (fun n => sgn * n)
    | [intPart, fracPart] =>
      if intPart = [] then
        (decDigits fracPart).map (fun f => sgn * (f : ℚ) / 10 ^ fracPart.length)
      else
        match decDigits intPart, fracPart with
        | some n, [] => some (sgn * n)
        | some n, _ :: _ =>
          (decDigits fracPart).map
            (fun f => sgn * ((n : ℚ) + (f : ℚ) / 10 ^ fracPart.length))
        | none, _ => none
    | _ => none

/-- Days since the Unix epoch for a civil date (Hinnant's algorithm,
restricted to years ≥ 1 as produced by the data source). -/
def daysFromCivil (y m d : ℕ) : ℤ :=
  let y' := if m ≤ 2 then y - 1 else y
  let era := y' / 400
  let yoe := y' % 400
  let mp := (m + 9) % 12
  let doy := (153 * mp + 2) / 5 + d - 1
  let doe := yoe * 365 + yoe / 4 - yoe / 100 + doy
  (era * 146097 + doe : ℤ) - 719468

/-- Parse `"YYYY-MM-DD"`. -/
def parseCivilDate (cs : List Char) : Option ℤ :=
  match splitOnChar '-' cs with
  | [y, m, d] => do
    let yn ← decDigits y
    let mn ← decDigits m
    let dn ← decDigits d
    if 1 ≤ mn ∧ mn ≤ 12 ∧ 1 ≤ dn ∧ dn ≤ 31 then
      pure (daysFromCivil yn mn dn)
    else none
  | _ => none

/-- Parse `"HH:MM[:SS[.fff]][Z]"` to milliseconds within the day. -/
def parseTimeOfDayMs (cs : List Char) : Option ℤ := do
  let core := if cs.getLast? = some 'Z' then cs.dropLast else cs
  let toMs (h m s : ℕ) (ms : ℕ) : Option ℤ :=
    if h < 24 ∧ m < 60 ∧ s < 60 then
      some (((h * 3600 + m * 60 + s) * 1000 + ms : ℕ) : ℤ)
    else none
  match splitOnChar ':' core with
  | [h, m] => do toMs (← decDigits h) (← decDigits m) 0 0
  | [h, m, sec] =>
    match splitOnChar '.' sec with
    | [ss] => do toMs (← decDigits h) (← decDigits m) (← decDigits ss) 0
    | [ss, ff] => do
      let msv ← decDigits ((ff.take 3) ++ List.replicate (3 - ff.length) '0')
      toMs (← decDigits h) (← decDigits m) (← decDigits ss) msv
    | _ => none
  | _ => none

/-- Model of `new Date(string).getTime()` on the ISO-like strings the source
feeds it (`none` plays `NaN`). -/
def parseDateMs (s : String) : Option ℤ :=
  match splitOnChar 'T' s.data with
  | [d] => (parseCivilDate d).map (· * 86400000)
  | [d, t] => do
    pure ((← parseCivilDate d) * 86400000 + (← parseTimeOfDayMs t))
  | _ => none

/-- JS value model covering the shapes the converter consumes.  A missing
object property is represented by lookup returning `none` (undefined). -/
inductive Json where
  | null
  | bool (b : Bool)
  | num (q : ℚ)
  | str (s : String)
  | arr (items : List Json)
  | obj (fields : List (String × Json))

/-- Property access `v?.k` (undefined on non-objects, as in the source's
`asRecord` guard which also rejects arrays). -/
def Json.get? : Json → String → Option Json
  | .obj fields, k => (fields.find? (·.1 = k)).map (·.2)
  | _, _ => none

/-- `typeof v === "string" ? v : undefined`. -/
def Json.str? : Option Json → Option String
  | some (.str s) => some s
  | _ => none

/-- JS truthiness of a value (missing property / `undefined` is falsy,
handled by the `Option` layer at call sites). -/
def jsTruthy : Json → Bool
  | .null => false
  | .bool b => b
  | .num q => decide (q ≠ 0)
  | .str s => decide (s ≠ "")
  | .arr _ => true
  | .obj _ => true

/-- `String(v)` stand-in: the converter only stringifies ids and labels, and
no claim depends on the exact rendering of non-string values. -/
def jsToString : Json → String
  | .null => "null"
  | .bool b => if b then "true" else "false"
  | .num q => toString q
  | .str s => s
  | .arr _ => "[array]"
  | .obj _ => "[object Object]"

/-- `safeNumber` (App.tsx:54-57): numbers pass through, strings go through
`Number(...)`, everything else (including `undefined`) is NaN → `undefined`. -/
def safeNumber : Option Json → Option ℚ
  | some (.num q) => some q
  | some (.str s) => jsStringToNumber s
  | _ => none

/-! ## Data model (App.tsx:6-52) -/

/-- `SeriesPoint` (App.tsx:43-49). -/
structure SeriesPoint where
  tSec : ℚ
  hr : Option ℚ := none
  watts : Option ℚ := none
  cadence : Option ℚ := none
  verticalM : Option ℚ := none
deriving DecidableEq

instance : Inhabited SeriesPoint := ⟨{ tSec := 0 }⟩

/-- The `metrics: Record<string, number>` map, keys unique, insertion
ordered. -/
abbrev Metrics := List (String × ℚ)

/-- Property read `metrics[k]`. -/
def mget (m : Metrics) (k : String) : Option ℚ :=
  (m.find? (·.1 = k)).map (·.2)

/-- Property write `metrics[k] = v` (overwrite in place or append). -/
def mset (m : Metrics) (k : String) (v : ℚ) : Metrics :=
  if m.any (·.1 = k) then
    m.map (fun p => if p.1 = k then (k, v) else p)
  else m ++ [(k, v)]

/-- `WorkoutExportOpts` (App.tsx:6-14). -/
structure WorkoutExportOpts where
  includeHrSeries : Bool
  includeCadenceSeries : Bool
  includePowerSeries : Bool
  includeMetricsInNotes : Bool
  includeCalories : Bool
  includeDistance : Bool
  includeVerticalAsAltitude : Bool
deriving DecidableEq

inductive Source where
  | indoor
  | outdoor
deriving DecidableEq

/-- `Workout` (App.tsx:16-41).  The display-only fields `startedAtDisplay`
(locale rendering) and `metricKeys` (schema-inspector listing) are omitted:
no encoder reads them. -/
structure Workout where
  uid : String
  source : Source
  id : String
  startedAtISO : Option String := none
  activityName : String
  durationSec : Option ℚ := none
  calories : Option ℚ := none
  distanceM : Option ℚ := none
  verticalM : Option ℚ := none
  cadenceSpm : Option ℚ := none
  exportOpts : WorkoutExportOpts
  metrics : Metrics
  series : Option (List SeriesPoint) := none
  raw : Json

/-! ## Normalizer helpers (App.tsx:136-224) -/

/-- `??` on a JS value: both `undefined` (absent, the `Option` layer) and an
explicit `null` fall through to the right operand. -/
def jsCoalesce : Option Json → Option Json
  | some .null => none
  | x => x

/-- `prToMap` (App.tsx:163-185): resolve the `pr` array under the two parent
keys and two casings via the null-coalescing chain
`performedData?.pr ?? physicalActivityData?.pr ?? performedData?.PR ??
physicalActivityData?.PR`. -/
def prResolve (raw : Json) : Option Json :=
  let performedData := raw.get? "performedData"
  let physicalActivityData := raw.get? "physicalActivityData"
  (jsCoalesce (performedData.bind (Json.get? · "pr"))).orElse
    (fun _ => (jsCoalesce (physicalActivityData.bind (Json.get? · "pr"))).orElse
      (fun _ => (jsCoalesce (performedData.bind (Json.get? · "PR"))).orElse
        (fun _ => physicalActivityData.bind (Json.get? · "PR"))))

/-- One iteration of the `prToMap` loop (App.tsx:178-183): keep the pair
only when the name is a string and the value parses. -/
def prStep (out : Metrics) (item : Json) : Metrics :=
  match item.get? "n", safeNumber (item.get? "v") with
  | some (.str name), some val => mset out name val
  | _, _ => out

/-- `prToMap` (App.tsx:163-185): fold the `{n, v}` pairs into the metrics
map; non-string names and unparsable values are skipped. -/
def prToMap (raw : Json) : Metrics :=
  match prResolve raw with
  | some (.arr pr) => pr.foldl prStep []
  | _ => []

/-- `pickDistanceM` (App.tsx:187-194). -/
def pickDistanceM (m : Metrics) : Option ℚ :=
  ((mget m "HDistance").orElse
    (fun _ => mget m "Distance")).orElse
    (fun _ => ((mget m "DistanceMeters").orElse
      (fun _ => (mget m "Km").map (· * 1000))))

/-- `pickVerticalM` (App.tsx:196-198). -/
def pickVerticalM (m : Metrics) : Option ℚ :=
  (mget m "Elevation").orElse (fun _ => mget m "Floors")

/-- `pickCadenceSpm` (App.tsx:200-202). -/
def pickCadenceSpm (m : Metrics) : Option ℚ :=
  (mget m "AvgSpm").orElse (fun _ => mget m "Cadence")

/-- `pickSport` (App.tsx:136-142). -/
inductive Sport3 where
  | Running
  | Biking
  | Other
deriving DecidableEq

def pickSport (activityName : String) : Sport3 :=
  if jsIncludes activityName "run" then .Running
  else if jsIncludes activityName "cycle" || jsIncludes activityName "bike"
      || jsIncludes activityName "ride" then .Biking
  else .Other

/-- `pickFitSport` (App.tsx:210-224). -/
inductive FitSport where
  | running
  | cycling
  | fitness_equipment
  | generic
deriving DecidableEq

inductive FitSubSport where
  | stair_climbing
deriving DecidableEq

def pickFitSport (w : Workout) : FitSport × Option FitSubSport :=
  let a := w.activityName
  if jsIncludes a "run" then (.running, none)
  else if jsIncludes a "cycle" || jsIncludes a "bike" || jsIncludes a "ride" then
    (.cycling, none)
  else if jsIncludes a "stair" || jsIncludes a "climb" || jsIncludes a "floor" then
    (.fitness_equipment, some .stair_climbing)
  else if w.source = .indoor then (.fitness_equipment, none)
  else (.generic, none)

/-! ## Series sorting

Both encoders run `[...(w.series ?? [])].sort((a, b) => a.tSec - b.tSec)`
(App.tsx:278 and 494): a stable ascending sort on a copy.  JS `Array.sort`
is required to be stable, which insertion sort on the non-strict key order
models exactly. -/

def seriesLE (a b : SeriesPoint) : Prop := a.tSec ≤ b.tSec

instance : DecidableRel seriesLE := fun a b =>
  inferInstanceAs (Decidable (a.tSec ≤ b.tSec))

instance : IsTotal SeriesPoint seriesLE := ⟨fun a b => le_total a.tSec b.tSec⟩

instance : IsTrans SeriesPoint seriesLE := ⟨fun _ _ _ => le_trans⟩

def sortSeries (l : List SeriesPoint) : List SeriesPoint :=
  l.insertionSort seriesLE

/-! ## HR interpolation (App.tsx:832-849, duplicated at 498-515)

`hrAt` walks adjacent anchor pairs; `hrAtGo` is the `for` loop starting from
index 1, with the previous anchor carried explicitly and the post-loop
`return last.hr` as the base case. -/

/-- An HR anchor `{tSec, hr}`. -/
structure HrAnchor where
  tSec : ℚ
  hr : ℚ
deriving DecidableEq

/-- The loop body (App.tsx:507-512, 841-846): the span check and the linear
interpolation between the previous anchor `a` and the current anchor `b`. -/
def loopStep (a b : HrAnchor) (t : ℚ) : ℚ :=
  if b.tSec - a.tSec ≤ 0 then b.hr
  else a.hr + (b.hr - a.hr) * ((t - a.tSec) / (b.tSec - a.tSec))

def hrAtGo (t lastHr : ℚ) : HrAnchor → List HrAnchor → ℚ
  | _, [] => lastHr
  | a, b :: rest =>
    if t ≤ b.tSec then loopStep a b t
    else hrAtGo t lastHr b rest

/-- The spec's interpolation value between adjacent anchors, including its
degenerate equal-timestamp case. -/
def interp (a b : HrAnchor) (t : ℚ) : ℚ :=
  if b.tSec = a.tSec then b.hr
  else a.hr + (b.hr - a.hr) * ((t - a.tSec) / (b.tSec - a.tSec))

def hrAt (anchors : List HrAnchor) (t : ℚ) : Option ℚ :=
  match anchors with
  | [] => none
  | a :: rest =>
    if rest = [] then some a.hr
    else if t ≤ a.tSec then some a.hr
    else
      let lastA := (a :: rest).getLast (List.cons_ne_nil a rest)
      if lastA.tSec ≤ t then some lastA.hr
      else some (hrAtGo t lastA.hr a rest)

/-! ## Start-time resolution (App.tsx:227-243 and 415-427)

`startISO = (typeof w.startedAtISO === "string" && w.startedAtISO) ||
rawStartISO || new Date().toISOString()`, then `new Date(startISO)` with a
`Date.now()` fallback when parsing yields `NaN`.  The wall clock is the
explicit `now` parameter; when both candidate strings are absent/falsy the
source parses back its own `toISOString()` of the current instant, which is
`now` itself. -/

def rawStartISO (raw : Json) : Option String :=
  (Json.str? (raw.get? "on")).orElse
    (fun _ => Json.str? (raw.get? "performedDate"))

/-- JS `||` step on an optional string: the empty string is falsy. -/
def jsOrStr : Option String → Option String
  | some s => if s = "" then none else some s
  | none => none

def resolveStartMs (w : Workout) (now : ℤ) : ℤ :=
  match (jsOrStr w.startedAtISO).orElse (fun _ => jsOrStr (rawStartISO w.raw)) with
  | some s => (parseDateMs s).getD now
  | none => now

/-- `Math.max(0, Math.round(w.durationSec ?? 0))`. -/
def totalSecondsOf (w : Workout) : ℤ := max 0 (jsRound (w.durationSec.getD 0))

/-- The cadence fallback shared by both encoders (App.tsx:263-271 and
439-445): `AvgSpm`/`Cadence` metric, else `Move / (Duration / 60)`. -/
def defaultCadenceSpm (w : Workout) (opts : WorkoutExportOpts) : Option ℚ :=
  let spmFromField := pickCadenceSpm w.metrics
  let move := mget w.metrics "Move"
  let dur : ℚ := ((mget w.metrics "Duration").orElse (fun _ => w.durationSec)).getD 0
  if opts.includeCadenceSeries then
    spmFromField.orElse (fun _ =>
      match move with
      | some mv => if 0 < dur then some (mv / (dur / 60)) else none
      | none => none)
  else none

/-! ## Track Encoder (App.tsx:226-408)

The XML document is represented structurally: one `TCXPoint` per emitted
`<Trackpoint>` (fields in source order, `none` for omitted optional
elements) and the lap/activity level fields on `TCXDoc`.  The XML text is a
fixed injective rendering of this structure, so the structure is the
encoder's output for verification purposes. -/

structure TCXPoint where
  timeMs : ℤ
  alt : Option ℚ
  dist : ℚ
  hr : Option ℤ
  cadence : Option ℤ
  watts : Option ℤ
deriving DecidableEq

structure TCXDoc where
  sport : Sport3
  startMs : ℤ
  totalTimeSeconds : ℤ
  lapDistanceMeters : ℚ
  calories : Option ℤ
  points : List TCXPoint
  notesMetrics : Option Metrics
deriving DecidableEq

def workoutToTCXBody (w : Workout) (opts : WorkoutExportOpts) (startMs : ℤ) :
    TCXDoc :=
  let totalSeconds := totalSecondsOf w
  let calories := if opts.includeCalories then w.calories else none
  let totalDistanceM := if opts.includeDistance then w.distanceM else none
  let totalVerticalM := if opts.includeVerticalAsAltitude then w.verticalM else none
  let avgHr := mget w.metrics "AvgHr"
  let maxHr := mget w.metrics "MaxHr"
  let avgPower := mget w.metrics "AvgPower"
  let watts : Option ℤ := if opts.includePowerSeries then avgPower.map jsRound else none
  let cadence : Option ℤ := (defaultCadenceSpm w opts).map jsRound
  let series := w.series.getD []
  let points : List TCXPoint :=
    if series ≠ [] then
      let sortedSeries := sortSeries series
      let seriesTotalSec : ℚ :=
        max (totalSeconds : ℚ) ((sortedSeries.getLast?.map (·.tSec)).getD 0)
      sortedSeries.map (fun p =>
        let t : ℤ := max 0 (jsRound p.tSec)
        { timeMs := startMs + t * 1000
          hr := if opts.includeHrSeries then p.hr.map jsRound else none
          cadence := if opts.includeCadenceSeries then
              (match p.cadence with
               | some c => some (jsRound c)
               | none => cadence)
            else none
          watts := if opts.includePowerSeries then
              (match p.watts with
               | some x => some (jsRound x)
               | none => watts)
            else none
          dist := match totalDistanceM with
            | some D => if 0 < seriesTotalSec then D * ((t : ℚ) / seriesTotalSec) else 0
            | none => 0
          alt := if opts.includeVerticalAsAltitude then
              (match p.verticalM with
               | some v => some v
               | none =>
                 match totalVerticalM with
                 | some V =>
                   if 0 < seriesTotalSec then some (V * ((t : ℚ) / seriesTotalSec)) else none
                 | none => none)
            else none })
    else
      let n : ℕ := if 0 < totalSeconds then max 2 (totalSeconds.toNat / 5 + 1) else 2
      (List.range n).map (fun (i : ℕ) =>
        let t : ℤ := min totalSeconds ((i : ℤ) * 5)
        { timeMs := startMs + t * 1000
          hr := if opts.includeHrSeries then
              (avgHr.orElse (fun _ => maxHr)).map jsRound
            else none
          dist := match totalDistanceM with
            | some D => if 0 < totalSeconds then D * ((t : ℚ) / (totalSeconds : ℚ)) else 0
            | none => 0
          alt := match totalVerticalM with
            | some V => if 0 < totalSeconds then some (V * ((t : ℚ) / (totalSeconds : ℚ))) else none
            | none => none
          cadence := cadence
          watts := watts })
  { sport := pickSport w.activityName
    startMs := startMs
    totalTimeSeconds := totalSeconds
    lapDistanceMeters := totalDistanceM.getD 0
    calories := calories.map (fun c => max 0 (jsRound c))
    points := points
    notesMetrics := if opts.includeMetricsInNotes then some w.metrics else none }

def workoutToTCX (w : Workout) (opts : WorkoutExportOpts) (now : ℤ) : TCXDoc :=
  workoutToTCXBody w opts (resolveStartMs w now)

/-! ## Activity Encoder (App.tsx:410-685)

The external FIT writer is modelled as the ordered list of messages handed
to it; each `writeMessage` call appends one `FitMsg`. -/

/-- One entry of the `records` array (App.tsx:484-491). -/
structure FitRecVal where
  tSec : ℤ
  hr : Option ℤ
  cadence : Option ℤ
  watts : Option ℤ
  alt : Option ℚ
  dist : ℚ
deriving DecidableEq

instance : Inhabited FitRecVal := ⟨⟨0, none, none, none, none, 0⟩⟩

/-- Fields shared by the lap and session summary messages
(App.tsx:617-654). -/
structure SummaryVals where
  timestampMs : ℤ
  startMs : ℤ
  totalTime : ℤ
  totalDistance : ℚ
  totalCalories : Option ℤ
  totalAscent : Option ℚ
  totalDescent : Option ℚ
  avgSpeed : Option ℚ
  maxSpeed : Option ℚ
  avgHeartRate : Option ℤ
  maxHeartRate : Option ℤ
  avgPower : Option ℤ
  totalWork : Option ℤ
  avgCadence : Option ℤ
deriving DecidableEq

inductive FitMsg where
  | fileId (timeCreatedMs : ℤ)
  | fileCreator
  | deviceInfo (timestampMs : ℤ)
  | eventStart (timestampMs : ℤ)
  | record (timestampMs : ℤ) (r : FitRecVal)
  | lap (s : SummaryVals)
  | session (s : SummaryVals) (sport : FitSport) (subSport : Option FitSubSport)
  | activity (timestampMs : ℤ) (totalTime : ℤ)
  | eventStop (timestampMs : ℤ)
deriving DecidableEq

inductive FitKind where
  | fileId
  | fileCreator
  | deviceInfo
  | eventStart
  | record
  | lap
  | session
  | activity
  | eventStop
deriving DecidableEq

def FitMsg.kind : FitMsg → FitKind
  | .fileId _ => .fileId
  | .fileCreator => .fileCreator
  | .deviceInfo _ => .deviceInfo
  | .eventStart _ => .eventStart
  | .record _ _ => .record
  | .lap _ => .lap
  | .session _ _ _ => .session
  | .activity _ _ => .activity
  | .eventStop _ => .eventStop

def anchorLE (a b : HrAnchor) : Prop := a.tSec ≤ b.tSec

instance : DecidableRel anchorLE := fun a b =>
  inferInstanceAs (Decidable (a.tSec ≤ b.tSec))

instance : IsTotal HrAnchor anchorLE := ⟨fun a b => le_total a.tSec b.tSec⟩

instance : IsTrans HrAnchor anchorLE := ⟨fun _ _ _ => le_trans⟩

/-- `hrAnchors` (App.tsx:495-497): series points with a known HR, re-sorted
by `tSec`. -/
def fitHrAnchors (sorted : List SeriesPoint) : List HrAnchor :=
  (sorted.filterMap (fun p => p.hr.map (fun h => ⟨p.tSec, h⟩))).insertionSort anchorLE

/-- The forward-fill scan (App.tsx:562-567): `prev` is the running
most-recently-seen HR. -/
def fillLoop (prev : ℤ) : List FitRecVal → List FitRecVal
  | [] => []
  | r :: rs =>
    match r.hr with
    | none => { r with hr := some prev } :: fillLoop prev rs
    | some h => r :: fillLoop h rs

/-- The fill seed (App.tsx:551-560): first record with a known HR, else
rounded `AvgHr`, else rounded `MaxHr`. -/
def fillFallback (avgHr maxHr : Option ℚ) (records : List FitRecVal) : Option ℤ :=
  ((records.filterMap (·.hr)).head?).orElse
    (fun _ => (avgHr.map jsRound).orElse (fun _ => maxHr.map jsRound))

/-- The defensive forward-fill pass (App.tsx:550-568), as applied to a
record list with the workout-level `AvgHr`/`MaxHr` fallbacks. -/
def forwardFill (avgHr maxHr : Option ℚ) (records : List FitRecVal) : List FitRecVal :=
  match fillFallback avgHr maxHr records with
  | some fb => fillLoop fb records
  | none => records

/-- The `records` array as handed to the record-message loop
(App.tsx:483-590), i.e. after the forward-fill pass in the series path. -/
def fitRecords (w : Workout) (opts : WorkoutExportOpts) : List FitRecVal :=
  let totalSeconds := totalSecondsOf w
  let totalDistanceM := if opts.includeDistance then w.distanceM else none
  let totalVerticalM := if opts.includeVerticalAsAltitude then w.verticalM else none
  let avgHr := mget w.metrics "AvgHr"
  let maxHr := mget w.metrics "MaxHr"
  let avgPower := mget w.metrics "AvgPower"
  let defaultCadence := defaultCadenceSpm w opts
  let defaultWatts : Option ℤ :=
    if opts.includePowerSeries then avgPower.map jsRound else none
  let series := w.series.getD []
  if series ≠ [] then
    let sortedSeries := sortSeries series
    let hrAnchors := fitHrAnchors sortedSeries
    let seriesTotalSec : ℚ :=
      max (totalSeconds : ℚ) ((sortedSeries.getLast?.map (·.tSec)).getD 0)
    let recs := sortedSeries.map (fun p =>
      let t : ℤ := max 0 (jsRound p.tSec)
      { tSec := t
        hr := if opts.includeHrSeries then (hrAt hrAnchors (t : ℚ)).map jsRound else none
        cadence := if opts.includeCadenceSeries then
            (match p.cadence with
             | some c => some (jsRound c)
             | none => defaultCadence.map jsRound)
          else none
        watts := if opts.includePowerSeries then
            (match p.watts with
             | some x => some (jsRound x)
             | none => defaultWatts)
          else none
        alt := if opts.includeVerticalAsAltitude then
            (match p.verticalM with
             | some v => some v
             | none =>
               match totalVerticalM with
               | some V =>
                 if 0 < seriesTotalSec then some (V * ((t : ℚ) / seriesTotalSec)) else none
               | none => none)
          else none
        dist := match totalDistanceM with
          | some D => if 0 < seriesTotalSec then D * ((t : ℚ) / seriesTotalSec) else 0
          | none => 0 })
    if opts.includeHrSeries ∧ recs ≠ [] then forwardFill avgHr maxHr recs else recs
  else
    let n : ℕ := if 0 < totalSeconds then max 2 (totalSeconds.toNat / 5 + 1) else 2
    (List.range n).map (fun (i : ℕ) =>
      let t : ℤ := min totalSeconds ((i : ℤ) * 5)
      { tSec := t
        hr := if opts.includeHrSeries then
            (avgHr.orElse (fun _ => maxHr)).map jsRound
          else none
        cadence := defaultCadence.map jsRound
        watts := defaultWatts
        alt := match totalVerticalM with
          | some V => if 0 < totalSeconds then some (V * ((t : ℚ) / (totalSeconds : ℚ))) else none
          | none => none
        dist := match totalDistanceM with
          | some D => if 0 < totalSeconds then D * ((t : ℚ) / (totalSeconds : ℚ)) else 0
          | none => 0 })

def workoutToFITBody (w : Workout) (opts : WorkoutExportOpts)
    (enhancedCompatibility : Bool) (startMs : ℤ) : List FitMsg :=
  let totalDistanceM := if opts.includeDistance then w.distanceM else none
  let totalVerticalM := if opts.includeVerticalAsAltitude then w.verticalM else none
  let calories : Option ℤ :=
    if opts.includeCalories then w.calories.map (fun c => max 0 (jsRound c)) else none
  let avgHr := mget w.metrics "AvgHr"
  let maxHr := mget w.metrics "MaxHr"
  let avgPower := mget w.metrics "AvgPower"
  let defaultCadence := defaultCadenceSpm w opts
  let records := fitRecords w opts
  let lastTSec : ℤ :=
    match records.getLast? with
    | some r => r.tSec
    | none => totalSecondsOf w
  let totalTime : ℤ := max 1 lastTSec
  let avgSpeed : Option ℚ :=
    match totalDistanceM with
    | some D => if 0 < totalTime then some (D / (totalTime : ℚ)) else none
    | none => none
  let maxSpeed := avgSpeed.map (· * (108 / 100))
  let totalAscent := totalVerticalM.map (fun v => max 0 v)
  let totalDescent : Option ℚ := totalVerticalM.map (fun _ => 0)
  let totalWork : Option ℤ :=
    avgPower.map (fun p => max 0 (jsRound (p * (totalTime : ℚ))))
  let endMs : ℤ := startMs + max 1 lastTSec * 1000
  let sv : SummaryVals :=
    { timestampMs := endMs
      startMs := startMs
      totalTime := totalTime
      totalDistance := totalDistanceM.getD 0
      totalCalories := calories
      totalAscent := totalAscent
      totalDescent := totalDescent
      avgSpeed := avgSpeed
      maxSpeed := maxSpeed
      avgHeartRate := avgHr.map jsRound
      maxHeartRate := maxHr.map jsRound
      avgPower := avgPower.map jsRound
      totalWork := totalWork
      avgCadence := defaultCadence.map jsRound }
  let sport := pickFitSport w
  [FitMsg.fileId startMs]
    ++ (if enhancedCompatibility then
          [FitMsg.fileCreator, FitMsg.deviceInfo startMs, FitMsg.eventStart startMs]
        else [])
    ++ records.map (fun r => FitMsg.record (startMs + r.tSec * 1000) r)
    ++ [FitMsg.lap sv, FitMsg.session sv sport.1 sport.2,
        FitMsg.activity endMs totalTime]
    ++ (if enhancedCompatibility then
          [FitMsg.eventStop endMs, FitMsg.deviceInfo endMs]
        else [])

def workoutToFIT (w : Workout) (opts : WorkoutExportOpts)
    (enhancedCompatibility : Bool) (now : ℤ) : List FitMsg :=
  workoutToFITBody w opts enhancedCompatibility (resolveStartMs w now)

/-- The record messages of an encoded FIT message list. -/
def recordMsgs (msgs : List FitMsg) : List (ℤ × FitRecVal) :=
  msgs.filterMap (fun m =>
    match m with
    | .record ts r => some (ts, r)
    | _ => none)

/-! ## Indoor normalizer (App.tsx:687-736) -/

def extractWorkoutsFromIndoorJSON (obj : Json) : List Workout :=
  let items := match obj with | .arr l => l | _ => []
  items.enum.map (fun pair =>
    let idx := pair.1
    let raw := pair.2
    let metrics := prToMap raw
    let startedAt : Option Json := raw.get? "on"
    let durationSec := mget metrics "Duration"
    let calories := mget metrics "Calories"
    let distanceM := pickDistanceM metrics
    let verticalM := pickVerticalM metrics
    let cadenceSpm := pickCadenceSpm metrics
    let nameFallback : Json :=
      .str (if verticalM.isSome then "Stair climber" else "Indoor workout")
    let activityName : Json :=
      match raw.get? "activityName" with
      | some v => if jsTruthy v then v else nameFallback
      | none => nameFallback
    let idTemplate : String :=
      ((jsCoalesce startedAt).map jsToString).getD "ind" ++ "-" ++ toString idx
    let id : String :=
      match jsCoalesce (raw.get? "id") with
      | some v => jsToString v
      | none => idTemplate
    let uid : String :=
      "indoor-" ++ ((jsCoalesce startedAt).map jsToString).getD "unknown"
        ++ "-" ++ id ++ "-" ++ toString idx
    { uid := uid
      source := .indoor
      id := id
      startedAtISO := Json.str? startedAt
      activityName := jsToString activityName
      durationSec := durationSec
      distanceM := distanceM
      calories := calories
      verticalM := verticalM
      cadenceSpm := cadenceSpm
      metrics := metrics
      raw := raw
      series := none
      exportOpts :=
        { includeHrSeries := (mget metrics "AvgHr").isSome || (mget metrics "MaxHr").isSome
          includeCadenceSeries := cadenceSpm.isSome || (mget metrics "AvgSpm").isSome
            || (mget metrics "Cadence").isSome
          includePowerSeries := (mget metrics "AvgPower").isSome
          includeMetricsInNotes := false
          includeCalories := calories.isSome
          includeDistance := distanceM.isSome
          includeVerticalAsAltitude := verticalM.isSome } })

/-! ## Heap model for the frame claim

The only mutations either encoder performs are (a) the in-place `.sort` on
the spread copy `[...(w.series ?? [])]` (App.tsx:278 and 494) and (b) the
forward-fill writes `r.hr = prev` to the freshly pushed record objects
(App.tsx:563-566).  To reason about them as effects, JS objects are given
explicit addresses: `arrs` holds array objects (lists of point addresses),
`pts` the series-point objects, `recs` the record objects built by the
Activity Encoder.  Allocation appends; the workout's own series array lives
at an existing address. -/

structure Heap where
  arrs : List (List ℕ)
  pts : List SeriesPoint
  recs : List FitRecVal

def readPt (h : Heap) (a : ℕ) : SeriesPoint := h.pts.getD a default

def ptLE (h : Heap) (x y : ℕ) : Prop := (readPt h x).tSec ≤ (readPt h y).tSec

instance (h : Heap) : DecidableRel (ptLE h) := fun x y =>
  inferInstanceAs (Decidable ((readPt h x).tSec ≤ (readPt h y).tSec))

/-- `[...(w.series ?? [])].sort((a, b) => a.tSec - b.tSec)`: allocate a copy
of the array object, then sort that copy in place.  Returns the copy's
address. -/
def copySortSeries (h : Heap) (seriesAddr : ℕ) : Heap × ℕ :=
  let orig := h.arrs.getD seriesAddr []
  let copyAddr := h.arrs.length
  let sorted := orig.insertionSort (ptLE h)
  ({ h with arrs := (h.arrs ++ [orig]).set copyAddr sorted }, copyAddr)

/-- `records.push({...})` over the sorted points: each record is a freshly
allocated object derived from the point it reads (the per-point derivation
`mk` is the one verified on the pure embedding `fitRecords`). -/
def buildRecs (h : Heap) (ptAddrs : List ℕ) (mk : SeriesPoint → FitRecVal) :
    Heap × List ℕ :=
  ({ h with recs := h.recs ++ ptAddrs.map (fun a => mk (readPt h a)) },
   (List.range ptAddrs.length).map (· + h.recs.length))

/-- The forward-fill loop writing `r.hr = prev` through record
addresses. -/
def fillLoopH : Heap → ℤ → List ℕ → Heap
  | h, _, [] => h
  | h, prev, a :: rest =>
    let r := h.recs.getD a default
    match r.hr with
    | none => fillLoopH { h with recs := h.recs.set a { r with hr := some prev } } prev rest
    | some v => fillLoopH h v rest

/-- The Activity Encoder's series path as a heap transformer: copy+sort the
series array, build fresh records, forward-fill them (App.tsx:493-568).
Returns the new heap, the copy's address and the record addresses. -/
def fitSeriesPassH (h : Heap) (seriesAddr : ℕ) (mk : SeriesPoint → FitRecVal)
    (avgHr maxHr : Option ℚ) (includeHr : Bool) : Heap × ℕ × List ℕ :=
  let hc := copySortSeries h seriesAddr
  let h1 := hc.1
  let ptAddrs := h1.arrs.getD hc.2 []
  let br := buildRecs h1 ptAddrs mk
  let h2 := br.1
  let recAddrs := br.2
  let h3 :=
    if includeHr ∧ recAddrs ≠ [] then
      match (((recAddrs.filterMap (fun a => (h2.recs.getD a default).hr)).head?).orElse
          (fun _ => (avgHr.map jsRound).orElse (fun _ => maxHr.map jsRound))) with
      | some fb => fillLoopH h2 fb recAddrs
      | none => h2
    else h2
  (h3, hc.2, recAddrs)

/-! ## Specification-side definitions and concrete fixtures -/

/-- Last element of a list with an explicit fallback (used to state the
forward-fill characterization: the most recently seen HR, seeded). -/
def optLast (fb : ℤ) (l : List ℤ) : ℤ := l.getLast?.getD fb

/-- The record list of the spec's forward-fill scenario:
HR values `[null, null, 150, null]`. -/
def c1ExampleRecords : List FitRecVal :=
  [⟨0, none, none, none, none, 0⟩,
   ⟨1, none, none, none, none, 0⟩,
   ⟨2, some 150, none, none, none, 0⟩,
   ⟨3, none, none, none, none, 0⟩]

/-- Fixture: an indoor record whose `pr` array mixes an unparsable value
(`"abc"`) with a parsable one. -/
def c7Item : Json :=
  Json.obj [("performedData", Json.obj [("pr", Json.arr
    [Json.obj [("n", Json.str "AvgHr"), ("v", Json.str "abc")],
     Json.obj [("n", Json.str "Duration"), ("v", Json.num 60)]])])]

/-- Fixture: an indoor record with an explicit `pr: null` under
`performedData` — the `??` chain must fall through to
`physicalActivityData.pr`. -/
def c7NullItem : Json :=
  Json.obj [("performedData", Json.obj [("pr", Json.null)]),
    ("physicalActivityData", Json.obj [("pr", Json.arr
      [Json.obj [("n", Json.str "AvgHr"), ("v", Json.num 140)]])])]

/-- Fixture heap: one array object holding two point addresses, points out
of order. -/
def hFix : Heap :=
  { arrs := [[0, 1]], pts := [{ tSec := 9 }, { tSec := 4 }], recs := [] }

/-- Fixture per-point record derivation for the heap pass. -/
def mkFix : SeriesPoint → FitRecVal :=
  fun p => ⟨jsRound p.tSec, none, none, none, none, 0⟩

/-- A start time that parses, so the wall-clock fallback is not taken. -/
def validStart (w : Workout) : Prop :=
  ∃ s, w.startedAtISO = some s ∧ s ≠ "" ∧ (parseDateMs s).isSome = true

/-- Fixture options: every channel enabled, notes disabled. -/
def sampleOpts : WorkoutExportOpts :=
  { includeHrSeries := true
    includeCadenceSeries := true
    includePowerSeries := true
    includeMetricsInNotes := false
    includeCalories := true
    includeDistance := true
    includeVerticalAsAltitude := true }

/-- Fixture: a series-less workout with a declared 23-second duration. -/
def wSynth : Workout :=
  { uid := "w-synth"
    source := .indoor
    id := "1"
    activityName := "Indoor workout"
    durationSec := some 23
    exportOpts := sampleOpts
    metrics := []
    raw := .null }

/-- Fixture: the spec's distance pro-ration scenario (total distance 1000 m,
duration 100 s, one point at offset 25 s). -/
def wDist : Workout :=
  { uid := "w-dist"
    source := .indoor
    id := "2"
    activityName := "Indoor workout"
    durationSec := some 100
    distanceM := some 1000
    series := some [{ tSec := 25 }]
    exportOpts := sampleOpts
    metrics := []
    raw := .null }

/-- Fixture: a workout with a valid parseable start timestamp. -/
def wStart : Workout :=
  { uid := "w-start"
    source := .indoor
    id := "3"
    activityName := "Indoor workout"
    startedAtISO := some ("2024-01-02T03:04:05Z")
    durationSec := some 10
    exportOpts := sampleOpts
    metrics := []
    raw := .null }

/-! ## Shared lemmas -/

theorem jsRound_intCast (n : ℤ) : jsRound (n : ℚ) = n := by
  have h0 : ⌊(1 / 2 : ℚ)⌋ = 0 := by
    rw [Int.floor_eq_iff]
    norm_num
  unfold jsRound
  rw [add_comm, Int.floor_add_int, h0, zero_add]

theorem jsRound_mono {a b : ℚ} (h : a ≤ b) : jsRound a ≤ jsRound b :=
  Int.floor_le_floor (by linarith)

theorem fillLoop_length (prev : ℤ) (l : List FitRecVal) :
    (fillLoop prev l).length = l.length := by
  induction l generalizing prev with
  | nil => rfl
  | cons r rs ih =>
    cases h : r.hr with
    | none => simp [fillLoop, h, ih]
    | some v => simp [fillLoop, h, ih]

theorem forwardFill_length (avgHr maxHr : Option ℚ) (l : List FitRecVal) :
    (forwardFill avgHr maxHr l).length = l.length := by
  unfold forwardFill
  cases fillFallback avgHr maxHr l with
  | none => rfl
  | some fb => exact fillLoop_length fb l

theorem fillLoop_tSec (prev : ℤ) (l : List FitRecVal) :
    (fillLoop prev l).map FitRecVal.tSec = l.map FitRecVal.tSec := by
  induction l generalizing prev with
  | nil => rfl
  | cons r rs ih =>
    cases h : r.hr with
    | none => simp [fillLoop, h, ih]
    | some v => simp [fillLoop, h, ih]

theorem fillLoop_dist (prev : ℤ) (l : List FitRecVal) :
    (fillLoop prev l).map FitRecVal.dist = l.map FitRecVal.dist := by
  induction l generalizing prev with
  | nil => rfl
  | cons r rs ih =>
    cases h : r.hr with
    | none => simp [fillLoop, h, ih]
    | some v => simp [fillLoop, h, ih]

theorem forwardFill_tSec (avgHr maxHr : Option ℚ) (l : List FitRecVal) :
    (forwardFill avgHr maxHr l).map FitRecVal.tSec = l.map FitRecVal.tSec := by
  unfold forwardFill
  cases fillFallback avgHr maxHr l with
  | none => rfl
  | some fb => exact fillLoop_tSec fb l

theorem forwardFill_dist (avgHr maxHr : Option ℚ) (l : List FitRecVal) :
    (forwardFill avgHr maxHr l).map FitRecVal.dist = l.map FitRecVal.dist := by
  unfold forwardFill
  cases fillFallback avgHr maxHr l with
  | none => rfl
  | some fb => exact fillLoop_dist fb l

theorem filterMap_record_map (f : FitRecVal → ℤ) (l : List FitRecVal) :
    List.filterMap
      (fun m => match m with
        | FitMsg.record ts r => some (ts, r)
        | _ => none)
      (l.map (fun r => FitMsg.record (f r) r)) = l.map (fun r => (f r, r)) := by
  induction l with
  | nil => rfl
  | cons r rs ih => simp [List.filterMap_cons, ih]

theorem recordMsgs_fit (w : Workout) (opts : WorkoutExportOpts) (e : Bool) (now : ℤ) :
    recordMsgs (workoutToFIT w opts e now) =
      (fitRecords w opts).map (fun r => (resolveStartMs w now + r.tSec * 1000, r)) := by
  unfold workoutToFIT workoutToFITBody recordMsgs
  cases e <;>
    simp [List.filterMap_append, List.filterMap_cons,
      filterMap_record_map (fun r => resolveStartMs w now + r.tSec * 1000)]

/-! ## Claims -/

theorem sorted_tSec_iff (l : List FitRecVal) :
    List.Sorted (fun a b : FitRecVal => a.tSec ≤ b.tSec) l ↔
      List.Sorted (· ≤ ·) (l.map FitRecVal.tSec) := by
  unfold List.Sorted
  rw [List.pairwise_map]

theorem sorted_ite_forwardFill {c : Prop} [Decidable c] (a m : Option ℚ)
    (recs : List FitRecVal)
    (h : List.Sorted (fun x y : FitRecVal => x.tSec ≤ y.tSec) recs) :
    List.Sorted (fun x y : FitRecVal => x.tSec ≤ y.tSec)
      (if c then forwardFill a m recs else recs) := by
  split_ifs
  · rw [sorted_tSec_iff, forwardFill_tSec, ← sorted_tSec_iff]
    exact h
  · exact h

/-- The records either encoder iterates are non-decreasing in `tSec`. -/
theorem fitRecords_sorted (w : Workout) (opts : WorkoutExportOpts) :
    List.Sorted (fun a b : FitRecVal => a.tSec ≤ b.tSec) (fitRecords w opts) := by
  unfold fitRecords
  by_cases hser : w.series.getD [] = []
  · simp only [hser, ne_eq, not_true_eq_false, if_false]
    refine List.Pairwise.map _ (fun a b hab => ?_)
      ((List.pairwise_lt_range _).imp Nat.le_of_lt)
    dsimp only
    omega
  · simp only [hser, ne_eq, not_false_eq_true, if_true]
    apply sorted_ite_forwardFill
    refine List.Pairwise.map _ (fun a b hab => ?_)
      (List.sorted_insertionSort seriesLE _)
    have := jsRound_mono hab
    dsimp only
    omega

/-- C8: both encoders process the series in non-decreasing `tSec` order
regardless of input order (the emitted time offsets are non-decreasing),
duplicates are retained (the sort is a permutation), and sorting an
already-sorted series is the identity, making the sort idempotent. -/
theorem claim_C8 :
    (∀ l, List.Sorted seriesLE (sortSeries l)) ∧
    (∀ l, List.Perm (sortSeries l) l) ∧
    (∀ l, List.Sorted seriesLE l → sortSeries l = l) ∧
    (∀ l, sortSeries (sortSeries l) = sortSeries l) ∧
    (∀ w opts now,
      List.Sorted (· ≤ ·) ((workoutToTCX w opts now).points.map TCXPoint.timeMs)) ∧
    (∀ w opts e now,
      List.Sorted (· ≤ ·) ((recordMsgs (workoutToFIT w opts e now)).map Prod.fst)) := by
  have hsorted : ∀ l, List.Sorted seriesLE (sortSeries l) :=
    fun l => List.sorted_insertionSort seriesLE l
  refine ⟨hsorted, ?_, ?_, ?_, ?_, ?_⟩
  · exact fun l => List.perm_insertionSort seriesLE l
  · exact fun l h => h.insertionSort_eq
  · exact fun l => (hsorted l).insertionSort_eq
  · intro w opts now
    unfold workoutToTCX workoutToTCXBody
    by_cases hser : w.series.getD [] = []
    · simp only [hser, ne_eq, not_true_eq_false, if_false, List.map_map]
      refine List.Pairwise.map _ (fun a b hab => ?_)
        ((List.pairwise_lt_range _).imp Nat.le_of_lt)
      dsimp only [Function.comp]
      omega
    · simp only [hser, ne_eq, not_false_eq_true, if_true, List.map_map]
      refine List.Pairwise.map _ (fun a b hab => ?_)
        (List.sorted_insertionSort seriesLE _)
      have := jsRound_mono hab
      dsimp only [Function.comp]
      omega
  · intro w opts e now
    rw [recordMsgs_fit, List.map_map]
    refine List.Pairwise.map _ (fun a b hab => ?_) (fitRecords_sorted w opts)
    dsimp only [Function.comp]
    omega

/-- C8 witness: a reversed two-point series is processed in ascending
order by both encoders. -/
theorem claim_C8_witness :
    sortSeries [{ tSec := 9 }, { tSec := 4 }] = [{ tSec := 4 }, { tSec := 9 }] ∧
    List.Sorted (· ≤ ·)
      ((workoutToTCX { wDist with series := some [{ tSec := 9 }, { tSec := 4 }] }
          sampleOpts 0).points.map TCXPoint.timeMs) := by
  constructor
  · have h := claim_C8.2.1 [{ tSec := 9 }, { tSec := 4 }]
    decide
  · exact claim_C8.2.2.2.2.1
      { wDist with series := some [{ tSec := 9 }, { tSec := 4 }] } sampleOpts 0

theorem jsRound_natCast (n : ℕ) : jsRound ((n : ℕ) : ℚ) = (n : ℤ) := by
  have h := jsRound_intCast (n : ℤ)
  rw [show (((n : ℤ) : ℚ)) = ((n : ℕ) : ℚ) by push_cast; ring] at h
  exact h

theorem ite_forwardFill_dist {c : Prop} [Decidable c] (a m : Option ℚ)
    (recs : List FitRecVal) :
    (if c then forwardFill a m recs else recs).map FitRecVal.dist =
      recs.map FitRecVal.dist := by
  split_ifs
  · exact forwardFill_dist a m recs
  · rfl

/-- C4: in the series path with the distance option on and a total distance
present, `seriesTotalSec = max(rounded declared duration, last sorted
point's tSec)`, and each emitted point/record carries distance
`totalDistance × (tSec / seriesTotalSec)` whenever `seriesTotalSec > 0`
(point offsets being the non-negative integers the data model
prescribes). -/
theorem claim_C4 (w : Workout) (opts : WorkoutExportOpts) (e : Bool) (now : ℤ)
    (D : ℚ) (hD : w.distanceM = some D) (hinc : opts.includeDistance = true)
    (hser : w.series.getD [] ≠ [])
    (hint : ∀ p ∈ w.series.getD [], ∃ n : ℕ, p.tSec = (n : ℚ))
    (S : ℚ)
    (hS : S = max ((totalSecondsOf w : ℤ) : ℚ)
      (((sortSeries (w.series.getD [])).getLast?.map (fun p => p.tSec)).getD 0))
    (hSpos : 0 < S) :
    ((workoutToTCX w opts now).points.map TCXPoint.dist =
      (sortSeries (w.series.getD [])).map (fun p => D * (p.tSec / S))) ∧
    ((recordMsgs (workoutToFIT w opts e now)).map (fun x => x.2.dist) =
      (sortSeries (w.series.getD [])).map (fun p => D * (p.tSec / S))) := by
  constructor
  · unfold workoutToTCX workoutToTCXBody
    simp only [hser, ne_eq, not_false_eq_true, if_true, hinc, hD, List.map_map]
    simp only [← hS]
    apply List.map_congr_left
    intro p hp
    obtain ⟨n, hn⟩ := hint p ((List.mem_insertionSort seriesLE).mp hp)
    dsimp only [Function.comp]
    rw [if_pos hSpos, hn, jsRound_natCast, show max 0 (n : ℤ) = (n : ℤ) by omega]
    push_cast
    ring
  · rw [recordMsgs_fit, List.map_map]
    show (fitRecords w opts).map FitRecVal.dist = _
    unfold fitRecords
    simp only [hser, ne_eq, not_false_eq_true, if_true, hinc, hD,
      ite_forwardFill_dist, List.map_map]
    simp only [← hS]
    apply List.map_congr_left
    intro p hp
    obtain ⟨n, hn⟩ := hint p ((List.mem_insertionSort seriesLE).mp hp)
    dsimp only [Function.comp]
    rw [if_pos hSpos, hn, jsRound_natCast, show max 0 (n : ℤ) = (n : ℤ) by omega]
    push_cast
    ring

/-- C4 witness: total distance 1000 m, `seriesTotalSec` 100 s, a point at
offset 25 s: both encoders emit distance 250.0 for it. -/
theorem claim_C4_witness :
    ((workoutToTCX wDist sampleOpts 0).points.map TCXPoint.dist = [(250 : ℚ)]) ∧
    ((recordMsgs (workoutToFIT wDist sampleOpts false 0)).map (fun x => x.2.dist) =
      [(250 : ℚ)]) := by
  have hts : totalSecondsOf wDist = 100 := by
    have h100 : jsRound ((100 : ℤ) : ℚ) = 100 := jsRound_intCast 100
    unfold totalSecondsOf wDist
    norm_num at h100 ⊢
    rw [h100]
    omega
  have hlist : sortSeries (wDist.series.getD []) =
      [{ tSec := 25, hr := none, watts := none, cadence := none, verticalM := none }] := rfl
  have hS : (100 : ℚ) = max ((totalSecondsOf wDist : ℤ) : ℚ)
      (((sortSeries (wDist.series.getD [])).getLast?.map (fun p => p.tSec)).getD 0) := by
    rw [hts, hlist]
    norm_num
  have h := claim_C4 wDist sampleOpts false 0 1000 rfl rfl
    (by rw [show wDist.series.getD [] = [{ tSec := 25 }] from rfl]; decide)
    (by
      intro p hp
      rw [show wDist.series.getD [] = [{ tSec := 25 }] from rfl] at hp
      simp only [List.mem_singleton] at hp
      subst hp
      exact ⟨25, by norm_num⟩)
    100 hS (by norm_num)
  rw [h.1, h.2, hlist]
  norm_num

theorem ite_forwardFill_length {c : Prop} [Decidable c] (a m : Option ℚ)
    (recs : List FitRecVal) :
    (if c then forwardFill a m recs else recs).length = recs.length := by
  split_ifs
  · exact forwardFill_length a m recs
  · rfl

/-- C5: the Activity Encoder emits, in order: file identification, (if
enhanced) creator, device-info and timer-start event, one record message per
sample point with non-decreasing timestamps, then lap, session and activity
summaries, and (if enhanced) a timer-stop event and a device-info
message. -/
theorem claim_C5 (w : Workout) (opts : WorkoutExportOpts) (e : Bool) (now : ℤ) :
    ((workoutToFIT w opts e now).map FitMsg.kind =
      [FitKind.fileId]
        ++ (if e then [FitKind.fileCreator, FitKind.deviceInfo, FitKind.eventStart]
            else [])
        ++ List.replicate (fitRecords w opts).length FitKind.record
        ++ [FitKind.lap, FitKind.session, FitKind.activity]
        ++ (if e then [FitKind.eventStop, FitKind.deviceInfo] else [])) ∧
    List.Sorted (· ≤ ·) ((recordMsgs (workoutToFIT w opts e now)).map Prod.fst) ∧
    (w.series.getD [] ≠ [] →
      (fitRecords w opts).length = (w.series.getD []).length) := by
  refine ⟨?_, ?_, ?_⟩
  · unfold workoutToFIT workoutToFITBody
    cases e <;>
      simp [FitMsg.kind, List.map_map, Function.comp] <;>
      rw [show (FitMsg.kind ∘ fun r : FitRecVal =>
          FitMsg.record (resolveStartMs w now + r.tSec * 1000) r) =
          (fun _ => FitKind.record) from rfl, List.map_const']
  · rw [recordMsgs_fit, List.map_map]
    refine List.Pairwise.map _ (fun a b hab => ?_) (fitRecords_sorted w opts)
    dsimp only [Function.comp]
    omega
  · intro hser
    unfold fitRecords
    simp only [hser, ne_eq, not_false_eq_true, if_true, ite_forwardFill_length,
      List.length_map]
    exact List.length_insertionSort seriesLE _

/-- C5 witness: on a one-point series in enhanced mode the full message
kind sequence is emitted. -/
theorem claim_C5_witness :
    (workoutToFIT wDist sampleOpts true 0).map FitMsg.kind =
      [FitKind.fileId, FitKind.fileCreator, FitKind.deviceInfo, FitKind.eventStart,
       FitKind.record, FitKind.lap, FitKind.session, FitKind.activity,
       FitKind.eventStop, FitKind.deviceInfo] := by
  have h := claim_C5 wDist sampleOpts true 0
  have hlen : (fitRecords wDist sampleOpts).length = 1 := by
    rw [h.2.2 (by rw [show wDist.series.getD [] = [{ tSec := 25 }] from rfl]; decide)]
    rfl
  rw [h.1, hlen]
  rfl

/-- C6: the derived scalars are fixed-priority fallback chains — distance is
the first present of `HDistance`, `Distance`, `DistanceMeters`, then
`Km × 1000`; vertical is `Elevation` then `Floors`; cadence is `AvgSpm` then
`Cadence`; each is undefined exactly when every key of its chain is
absent. -/
theorem claim_C6 :
    (∀ m v, mget m "HDistance" = some v → pickDistanceM m = some v) ∧
    (∀ m v, mget m "HDistance" = none → mget m "Distance" = some v →
      pickDistanceM m = some v) ∧
    (∀ m v, mget m "HDistance" = none → mget m "Distance" = none →
      mget m "DistanceMeters" = some v → pickDistanceM m = some v) ∧
    (∀ m v, mget m "HDistance" = none → mget m "Distance" = none →
      mget m "DistanceMeters" = none → mget m "Km" = some v →
      pickDistanceM m = some (v * 1000)) ∧
    (∀ m, pickDistanceM m = none ↔
      (mget m "HDistance" = none ∧ mget m "Distance" = none ∧
        mget m "DistanceMeters" = none ∧ mget m "Km" = none)) ∧
    (∀ m v, mget m "Elevation" = some v → pickVerticalM m = some v) ∧
    (∀ m v, mget m "Elevation" = none → mget m "Floors" = some v →
      pickVerticalM m = some v) ∧
    (∀ m, pickVerticalM m = none ↔
      (mget m "Elevation" = none ∧ mget m "Floors" = none)) ∧
    (∀ m v, mget m "AvgSpm" = some v → pickCadenceSpm m = some v) ∧
    (∀ m v, mget m "AvgSpm" = none → mget m "Cadence" = some v →
      pickCadenceSpm m = some v) ∧
    (∀ m, pickCadenceSpm m = none ↔
      (mget m "AvgSpm" = none ∧ mget m "Cadence" = none)) := by
  refine ⟨?_, ?_, ?_, ?_, ?_, ?_, ?_, ?_, ?_, ?_, ?_⟩
  · intro m v h; simp [pickDistanceM, h, Option.orElse]
  · intro m v h1 h2; simp [pickDistanceM, h1, h2, Option.orElse]
  · intro m v h1 h2 h3; simp [pickDistanceM, h1, h2, h3, Option.orElse]
  · intro m v h1 h2 h3 h4; simp [pickDistanceM, h1, h2, h3, h4, Option.orElse]
  · intro m
    cases h1 : mget m "HDistance" <;> cases h2 : mget m "Distance" <;>
      cases h3 : mget m "DistanceMeters" <;> cases h4 : mget m "Km" <;>
      simp [pickDistanceM, h1, h2, h3, h4, Option.orElse]
  · intro m v h; simp [pickVerticalM, h, Option.orElse]
  · intro m v h1 h2; simp [pickVerticalM, h1, h2, Option.orElse]
  · intro m
    cases h1 : mget m "Elevation" <;> cases h2 : mget m "Floors" <;>
      simp [pickVerticalM, h1, h2, Option.orElse]
  · intro m v h; simp [pickCadenceSpm, h, Option.orElse]
  · intro m v h1 h2; simp [pickCadenceSpm, h1, h2, Option.orElse]
  · intro m
    cases h1 : mget m "AvgSpm" <;> cases h2 : mget m "Cadence" <;>
      simp [pickCadenceSpm, h1, h2, Option.orElse]

/-- C6 witness: the chains evaluated at concrete metric maps. -/
theorem claim_C6_witness :
    pickDistanceM [("Km", 2)] = some (2 * 1000) ∧
    pickVerticalM [("Floors", 7)] = some 7 ∧
    pickCadenceSpm [("AvgSpm", 55), ("Cadence", 60)] = some 55 := by
  refine ⟨?_, ?_, ?_⟩
  · exact claim_C6.2.2.2.1 [("Km", 2)] 2 rfl rfl rfl rfl
  · exact claim_C6.2.2.2.2.2.2.1 [("Floors", 7)] 7 rfl rfl
  · exact claim_C6.2.2.2.2.2.2.2.2.1 [("AvgSpm", 55), ("Cadence", 60)] 55 rfl

/-- C3: with no series (or an empty one), both encoders synthesize points at
a 5-second cadence: exactly 2 points when the rounded duration is 0, and
`max(2, floor(duration/5)+1)` when it is positive. -/
theorem claim_C3 (w : Workout) (opts : WorkoutExportOpts) (e : Bool) (now : ℤ)
    (hs : w.series = none ∨ w.series = some []) :
    ((workoutToTCX w opts now).points.length =
      if totalSecondsOf w = 0 then 2 else max 2 ((totalSecondsOf w).toNat / 5 + 1)) ∧
    ((recordMsgs (workoutToFIT w opts e now)).length =
      if totalSecondsOf w = 0 then 2 else max 2 ((totalSecondsOf w).toNat / 5 + 1)) := by
  have hser : w.series.getD [] = [] := by rcases hs with h | h <;> simp [h]
  have hnn : 0 ≤ totalSecondsOf w := le_max_left 0 _
  constructor
  · simp only [workoutToTCX, workoutToTCXBody, hser]
    simp only [ne_eq, not_true_eq_false, if_false, List.length_map, List.length_range]
    split_ifs <;> omega
  · rw [recordMsgs_fit]
    simp only [List.length_map]
    unfold fitRecords
    simp only [hser]
    simp only [ne_eq, not_true_eq_false, if_false, List.length_map, List.length_range]
    split_ifs <;> omega

theorem optLast_cons (fb h : ℤ) (t : List ℤ) : optLast fb (h :: t) = optLast h t := by
  cases t with
  | nil => rfl
  | cons x xs =>
    simp only [optLast, List.getLast?_cons_cons]
    obtain ⟨y, hy⟩ := Option.isSome_iff_exists.mp
      (List.getLast?_isSome.mpr (List.cons_ne_nil x xs))
    rw [hy]
    rfl

theorem fillLoop_get? (l : List FitRecVal) (prev : ℤ) (i : ℕ) (hi : i < l.length) :
    (fillLoop prev l)[i]? = (l[i]?).map (fun r =>
      { r with hr := some (optLast prev ((l.take (i + 1)).filterMap FitRecVal.hr)) }) := by
  induction l generalizing prev i with
  | nil => simp at hi
  | cons r rs ih =>
    cases hhr : r.hr with
    | none =>
      cases i with
      | zero => simp [fillLoop, hhr, optLast, List.filterMap_cons]
      | succ j =>
        have hj : j < rs.length := by simpa using hi
        simp only [fillLoop, hhr, List.getElem?_cons_succ, List.take_succ_cons,
          List.filterMap_cons]
        exact ih prev j hj
    | some v =>
      cases i with
      | zero =>
        simp only [fillLoop, hhr, List.getElem?_cons_zero, List.take_succ_cons,
          List.take_zero, List.filterMap_cons, Option.map_some']
        cases r
        simp_all [optLast]
      | succ j =>
        have hj : j < rs.length := by simpa using hi
        simp only [fillLoop, hhr, List.getElem?_cons_succ, List.take_succ_cons,
          List.filterMap_cons, optLast_cons]
        exact ih v j hj

/-- C1 (amended): in the forward-fill pass, the seed is the first record
with a known HR value when one exists, and only when no record has an HR
does it fall back to rounded average then max HR; the scan then replaces
every undefined HR with the most recently seen value (the seed for leading
gaps).  Hence `[null, null, 150, null]` with average-HR fallback 130 fills
to `[150, 150, 150, 150]`. -/
theorem claim_C1 :
    (∀ (avgHr maxHr : Option ℚ) (records : List FitRecVal) (fb : ℤ),
      fillFallback avgHr maxHr records = some fb →
      ∀ i, i < records.length →
        (forwardFill avgHr maxHr records)[i]? = (records[i]?).map (fun r =>
          { r with
            hr := some (optLast fb ((records.take (i + 1)).filterMap FitRecVal.hr)) })) ∧
    (∀ (avgHr maxHr : Option ℚ) (records : List FitRecVal),
      records.filterMap FitRecVal.hr = [] →
      fillFallback avgHr maxHr records =
        (avgHr.map jsRound).orElse (fun _ => maxHr.map jsRound)) ∧
    ((forwardFill (some 130) none c1ExampleRecords).map FitRecVal.hr =
      [some 150, some 150, some 150, some 150]) := by
  refine ⟨?_, ?_, ?_⟩
  · intro avgHr maxHr records fb hfb i hi
    unfold forwardFill
    rw [hfb]
    exact fillLoop_get? records fb i hi
  · intro avgHr maxHr records h
    unfold fillFallback
    rw [h]
    rfl
  · decide

/-- C1 witness: the fill characterization applied at the example list,
index 0 (seed 150 = the first known record HR). -/
theorem claim_C1_witness :
    (forwardFill (some 130) none c1ExampleRecords)[0]? =
      (c1ExampleRecords[0]?).map (fun r =>
        { r with
          hr := some (optLast 150 ((c1ExampleRecords.take 1).filterMap FitRecVal.hr)) }) :=
  claim_C1.1 (some 130) none c1ExampleRecords 150 rfl 0 (by decide)

/-- C1 counterexample: on records with HR `[null, null, 150, null]` and
average-HR fallback 130, the pass yields `[150,150,150,150]`, not the
claimed `[130,130,150,150]`: a known record HR preempts the average-HR
fallback as the seed for the leading gap. -/
theorem claim_C1_counterexample :
    (forwardFill (some 130) none c1ExampleRecords).map FitRecVal.hr ≠
      [some 130, some 130, some 150, some 150] := by decide

/-- C3 witness: duration 23 s yields exactly 5 synthetic points in both
encoders. -/
theorem claim_C3_witness :
    (workoutToTCX wSynth sampleOpts 0).points.length = 5 ∧
    (recordMsgs (workoutToFIT wSynth sampleOpts false 0)).length = 5 := by
  have hT : totalSecondsOf wSynth = 23 := by
    have h23 : jsRound ((23 : ℕ) : ℚ) = 23 := jsRound_intCast 23
    unfold totalSecondsOf wSynth
    norm_num at h23 ⊢
    rw [h23]
    omega
  have h := claim_C3 wSynth sampleOpts false 0 (Or.inl rfl)
  rw [hT] at h
  norm_num at h
  exact h

theorem mem_mset {m : Metrics} {k k' : String} {v v' : ℚ}
    (h : (k', v') ∈ mset m k v) : (k' = k ∧ v' = v) ∨ (k', v') ∈ m := by
  unfold mset at h
  split_ifs at h
  · rcases List.mem_map.mp h with ⟨p, hp, he⟩
    by_cases hk : p.1 = k
    · rw [if_pos hk] at he
      have := Prod.mk.injEq k v k' v' ▸ he
      left
      exact ⟨(Prod.ext_iff.mp he).1.symm, (Prod.ext_iff.mp he).2.symm⟩
    · rw [if_neg hk] at he
      right
      exact he ▸ hp
  · rcases List.mem_append.mp h with h1 | h1
    · right
      exact h1
    · left
      have := List.mem_singleton.mp h1
      exact ⟨(Prod.ext_iff.mp this).1, (Prod.ext_iff.mp this).2⟩

theorem prStep_cases {out : Metrics} {item : Json} {k : String} {v : ℚ}
    (h : (k, v) ∈ prStep out item) :
    (k, v) ∈ out ∨
      (item.get? "n" = some (Json.str k) ∧ safeNumber (item.get? "v") = some v) := by
  unfold prStep at h
  split at h
  · rename_i name val hn hv
    rcases mem_mset h with ⟨hk, hvv⟩ | hmem
    · right
      subst hk
      subst hvv
      exact ⟨hn, hv⟩
    · left
      exact hmem
  · left
    exact h

theorem prFold_mem (pr : List Json) :
    ∀ (acc : Metrics) (k : String) (v : ℚ),
      (k, v) ∈ pr.foldl prStep acc →
      (k, v) ∈ acc ∨ ∃ item ∈ pr, item.get? "n" = some (Json.str k) ∧
        safeNumber (item.get? "v") = some v := by
  induction pr with
  | nil =>
    intro acc k v h
    exact Or.inl h
  | cons item rest ih =>
    intro acc k v h
    rw [List.foldl_cons] at h
    rcases ih _ k v h with h1 | ⟨it, hit, hn, hv⟩
    · rcases prStep_cases h1 with h2 | ⟨hn, hv⟩
      · exact Or.inl h2
      · exact Or.inr ⟨item, List.mem_cons_self item rest, hn, hv⟩
    · exact Or.inr ⟨it, List.mem_cons_of_mem _ hit, hn, hv⟩

/-- C7: the indoor normalizer is total — an input array of `n` records
yields exactly `n` Workouts, each with the (possibly empty) metrics map
`prToMap` extracts; every extracted metric entry comes from a `pr` item
whose name is a string and whose value parsed, so unparsable values are
dropped rather than raising; a missing/malformed `pr` array yields an empty
metrics map. -/
theorem claim_C7 :
    (∀ items : List Json,
      (extractWorkoutsFromIndoorJSON (Json.arr items)).length = items.length) ∧
    (∀ items : List Json,
      (extractWorkoutsFromIndoorJSON (Json.arr items)).map Workout.metrics =
        items.map prToMap) ∧
    (∀ raw k v, (k, v) ∈ prToMap raw →
      ∃ prItems, prResolve raw = some (Json.arr prItems) ∧
        ∃ item ∈ prItems, item.get? "n" = some (Json.str k) ∧
          safeNumber (item.get? "v") = some v) ∧
    (∀ raw, (∀ prItems, prResolve raw ≠ some (Json.arr prItems)) →
      prToMap raw = []) := by
  refine ⟨?_, ?_, ?_, ?_⟩
  · intro items
    unfold extractWorkoutsFromIndoorJSON
    simp [List.enum_length]
  · intro items
    unfold extractWorkoutsFromIndoorJSON
    rw [List.map_map]
    conv_rhs => rw [← List.enum_map_snd items, List.map_map]
    rfl
  · intro raw k v h
    unfold prToMap at h
    split at h
    · rename_i pr heq
      rcases prFold_mem pr [] k v h with h1 | h1
      · simp at h1
      · exact ⟨pr, heq, h1⟩
    · simp at h
  · intro raw hno
    unfold prToMap
    split
    · rename_i pr heq
      exact absurd heq (hno pr)
    · rfl

/-- C7 witness: a 2-element input with one non-object record and one record
mixing an unparsable HR (`"abc"`) with a parsable duration yields exactly 2
Workouts, and the parsable entry is traced back to its `pr` item; a record
with an explicit `pr: null` under `performedData` still extracts its metric
from `physicalActivityData.pr` (the `??` chain falls through `null`). -/
theorem claim_C7_witness :
    (extractWorkoutsFromIndoorJSON (Json.arr [Json.num 5, c7Item])).length = 2 ∧
    (∃ prItems, prResolve c7Item = some (Json.arr prItems) ∧
      ∃ item ∈ prItems, item.get? "n" = some (Json.str "Duration") ∧
        safeNumber (item.get? "v") = some 60) ∧
    (∃ prItems, prResolve c7NullItem = some (Json.arr prItems) ∧
      ∃ item ∈ prItems, item.get? "n" = some (Json.str "AvgHr") ∧
        safeNumber (item.get? "v") = some 140) := by
  refine ⟨?_, ?_, ?_⟩
  · exact claim_C7.1 [Json.num 5, c7Item]
  · exact claim_C7.2.2.1 c7Item "Duration" 60 (by decide)
  · exact claim_C7.2.2.1 c7NullItem "AvgHr" 140 (by decide)

theorem resolveStartMs_of_valid (w : Workout) (now : ℤ) (s : String) (ms : ℤ)
    (hs : w.startedAtISO = some s) (hne : s ≠ "") (hp : parseDateMs s = some ms) :
    resolveStartMs w now = ms := by
  unfold resolveStartMs
  rw [hs, show jsOrStr (some s) = some s by simp [jsOrStr, hne]]
  show (parseDateMs s).getD now = ms
  rw [hp]
  rfl

/-- C9: with a valid (parseable, non-empty) `startedAtISO` the wall-clock
fallback is never taken, and both encoders are functions of
`(Workout, opts[, enhanced])` alone: two runs with different clock readings
produce identical outputs. -/
theorem claim_C9 :
    (∀ w opts now₁ now₂, validStart w →
      workoutToTCX w opts now₁ = workoutToTCX w opts now₂) ∧
    (∀ w opts e now₁ now₂, validStart w →
      workoutToFIT w opts e now₁ = workoutToFIT w opts e now₂) := by
  have hres : ∀ w (now₁ now₂ : ℤ), validStart w →
      resolveStartMs w now₁ = resolveStartMs w now₂ := by
    intro w n1 n2 hv
    obtain ⟨s, hs, hne, hp⟩ := hv
    obtain ⟨ms, hms⟩ := Option.isSome_iff_exists.mp hp
    rw [resolveStartMs_of_valid w n1 s ms hs hne hms,
      resolveStartMs_of_valid w n2 s ms hs hne hms]
  constructor
  · intro w opts n1 n2 hv
    unfold workoutToTCX
    rw [hres w n1 n2 hv]
  · intro w opts e n1 n2 hv
    unfold workoutToFIT
    rw [hres w n1 n2 hv]

/-- C9 witness: a workout with start `2024-01-02T03:04:05Z` encodes
identically under two different clock readings. -/
theorem claim_C9_witness :
    workoutToTCX wStart sampleOpts 0 = workoutToTCX wStart sampleOpts 987654321 ∧
    workoutToFIT wStart sampleOpts true 0 =
      workoutToFIT wStart sampleOpts true 987654321 := by
  have hv : validStart wStart :=
    ⟨"2024-01-02T03:04:05Z", rfl, by decide, by decide⟩
  exact ⟨claim_C9.1 wStart sampleOpts 0 987654321 hv,
    claim_C9.2 wStart sampleOpts true 0 987654321 hv⟩

theorem copySortSeries_frame (h : Heap) (a : ℕ) (ha : a < h.arrs.length) :
    ((copySortSeries h a).1.arrs)[a]? = h.arrs[a]? ∧
    (copySortSeries h a).1.pts = h.pts ∧
    (copySortSeries h a).1.recs = h.recs := by
  refine ⟨?_, rfl, rfl⟩
  unfold copySortSeries
  dsimp only
  rw [List.getElem?_set_ne (by omega), List.getElem?_append_left ha]

theorem fillLoopH_frame (addrs : List ℕ) (n : ℕ) (hmin : ∀ a ∈ addrs, n ≤ a) :
    ∀ (h : Heap) (prev : ℤ),
      (fillLoopH h prev addrs).arrs = h.arrs ∧
      (fillLoopH h prev addrs).pts = h.pts ∧
      ∀ i, i < n → ((fillLoopH h prev addrs).recs)[i]? = h.recs[i]? := by
  induction addrs with
  | nil =>
    intro h prev
    exact ⟨rfl, rfl, fun i _ => rfl⟩
  | cons a rest ih =>
    intro h prev
    have hna : n ≤ a := hmin a (List.mem_cons_self a rest)
    have hrest : ∀ x ∈ rest, n ≤ x := fun x hx => hmin x (List.mem_cons_of_mem _ hx)
    unfold fillLoopH
    cases hhr : (h.recs.getD a default).hr with
    | none =>
      simp only [hhr]
      obtain ⟨harrs, hpts, hrecs⟩ := ih hrest
        { h with recs := h.recs.set a { h.recs.getD a default with hr := some prev } } prev
      refine ⟨harrs, hpts, fun i hi => ?_⟩
      rw [hrecs i hi]
      exact List.getElem?_set_ne (by omega)
    | some v =>
      simp only [hhr]
      exact ih hrest h v

theorem buildRecs_addrs (h : Heap) (ptAddrs : List ℕ) (mk : SeriesPoint → FitRecVal) :
    ∀ a ∈ (buildRecs h ptAddrs mk).2, h.recs.length ≤ a := by
  intro a ha
  unfold buildRecs at ha
  simp only [List.mem_map, List.mem_range] at ha
  obtain ⟨i, _, rfl⟩ := ha
  omega

/-- C10: neither encoder mutates the workout it reads.  In the heap model,
after the Track Encoder's copy-and-sort and after the Activity Encoder's
full series pass (copy-and-sort, fresh record building, forward-fill), the
workout's own series array keeps its element order, every series-point
object is unchanged, and every record object that existed before the pass is
unchanged: the sort runs on a fresh copy and the forward-fill writes only to
the freshly allocated records.  The workout's other fields (`metrics`
included) are plain values the encoders only read. -/
theorem claim_C10 (h : Heap) (seriesAddr : ℕ) (mk : SeriesPoint → FitRecVal)
    (avgHr maxHr : Option ℚ) (includeHr : Bool)
    (ha : seriesAddr < h.arrs.length) :
    (((copySortSeries h seriesAddr).1.arrs)[seriesAddr]? = h.arrs[seriesAddr]? ∧
      (copySortSeries h seriesAddr).1.pts = h.pts ∧
      (copySortSeries h seriesAddr).1.recs = h.recs) ∧
    (((fitSeriesPassH h seriesAddr mk avgHr maxHr includeHr).1.arrs)[seriesAddr]? =
        h.arrs[seriesAddr]? ∧
      (fitSeriesPassH h seriesAddr mk avgHr maxHr includeHr).1.pts = h.pts ∧
      ∀ i, i < h.recs.length →
        ((fitSeriesPassH h seriesAddr mk avgHr maxHr includeHr).1.recs)[i]? =
          h.recs[i]?) := by
  refine ⟨copySortSeries_frame h seriesAddr ha, ?_⟩
  have hcopy := copySortSeries_frame h seriesAddr ha
  unfold fitSeriesPassH
  dsimp only
  split_ifs with hc
  · split
    · rename_i fb hfb
      have hbound : ∀ a ∈ (buildRecs (copySortSeries h seriesAddr).1
          (((copySortSeries h seriesAddr).1.arrs.getD (copySortSeries h seriesAddr).2 []))
          mk).2, h.recs.length ≤ a :=
        buildRecs_addrs (copySortSeries h seriesAddr).1 _ mk
      obtain ⟨harrs, hpts, hrecs⟩ := fillLoopH_frame _ h.recs.length hbound _ fb
      refine ⟨?_, ?_, fun i hi => ?_⟩
      · rw [harrs]
        exact hcopy.1
      · rw [hpts]
        exact hcopy.2.1
      · rw [hrecs i hi]
        exact List.getElem?_append_left hi
    · exact ⟨hcopy.1, hcopy.2.1, fun i hi => List.getElem?_append_left hi⟩
  · exact ⟨hcopy.1, hcopy.2.1, fun i hi => List.getElem?_append_left hi⟩

/-- C10 witness: a concrete two-point heap; the original array and records
are untouched by the Activity Encoder's series pass. -/
theorem claim_C10_witness :
    ((copySortSeries hFix 0).1.arrs)[0]? = some [0, 1] ∧
    ((fitSeriesPassH hFix 0 mkFix (some 130) none true).1.pts) =
      [{ tSec := 9 }, { tSec := 4 }] := by
  have h := claim_C10 hFix 0 mkFix (some 130) none true (by decide)
  exact ⟨h.1.1, h.2.2.1⟩

theorem hrAtGo_reach (t lastHr : ℚ) (b : HrAnchor) (l₂ : List HrAnchor) :
    ∀ (pre : List HrAnchor) (a : HrAnchor),
      (∀ x ∈ a :: pre, x.tSec < t) → t ≤ b.tSec →
      hrAtGo t lastHr a (pre ++ b :: l₂) =
        loopStep ((a :: pre).getLast (List.cons_ne_nil a pre)) b t := by
  intro pre
  induction pre with
  | nil =>
    intro a hlt htb
    simp only [List.nil_append, hrAtGo, if_pos htb]
    rfl
  | cons c pre' ih =>
    intro a hlt htb
    have hc : c.tSec < t := hlt c (by simp)
    simp only [List.cons_append, hrAtGo]
    rw [if_neg (not_le.mpr hc)]
    simp only [List.append_eq]
    rw [ih c (fun x hx => hlt x (List.mem_cons_of_mem a hx)) htb]
    exact congrArg (fun p => loopStep p b t)
      (List.getLast_cons (List.cons_ne_nil c pre')).symm

/-- The inner-pair case of `hrAt`: under strictly ascending anchors, a query
strictly after `a` and at or before the adjacent `b` interpolates between
them. -/
theorem hrAt_interp (l₁ : List HrAnchor) (a b : HrAnchor) (l₂ : List HrAnchor)
    (t : ℚ)
    (hsort : List.Sorted (fun x y : HrAnchor => x.tSec < y.tSec)
      (l₁ ++ a :: b :: l₂))
    (hat : a.tSec < t) (htb : t ≤ b.tSec) :
    hrAt (l₁ ++ a :: b :: l₂) t = some (interp a b t) := by
  obtain ⟨pwl, pwr, hrel⟩ := List.pairwise_append.mp hsort
  have hab : a.tSec < b.tSec := (List.pairwise_cons.mp pwr).1 b (by simp)
  have hbl₂ : ∀ y ∈ l₂, b.tSec < y.tSec :=
    fun y hy => (List.pairwise_cons.mp (List.pairwise_cons.mp pwr).2).1 y hy
  have hl₁ : ∀ x ∈ l₁, x.tSec < a.tSec := fun x hx => hrel x hx a (by simp)
  have hspan : (0 : ℚ) < b.tSec - a.tSec := by linarith
  have hinterp : interp a b t =
      a.hr + (b.hr - a.hr) * ((t - a.tSec) / (b.tSec - a.tSec)) := by
    unfold interp
    rw [if_neg (by intro h; rw [h] at hab; exact lt_irrefl _ hab)]
  have hstep : loopStep a b t = interp a b t := by
    unfold loopStep
    rw [if_neg (by linarith), hinterp]
  have hb_interp : t = b.tSec → b.hr = interp a b t := by
    intro ht
    rw [hinterp, ht, div_self (by linarith)]
    ring
  cases l₁ with
  | nil =>
    simp only [List.nil_append]
    have hrest : (b :: l₂ : List HrAnchor) ≠ [] := List.cons_ne_nil b l₂
    simp only [hrAt]
    rw [if_neg hrest, if_neg (not_le.mpr hat)]
    by_cases hl2 : l₂ = []
    · subst hl2
      have hb : (a :: b :: ([] : List HrAnchor)).getLast
          (List.cons_ne_nil a [b]) = b := rfl
      by_cases hbt : b.tSec ≤ t
      · rw [if_pos (by rw [hb]; exact hbt)]
        rw [hb, hb_interp (le_antisymm htb hbt)]
      · rw [if_neg (by rw [hb]; exact hbt)]
        rw [show (b :: ([] : List HrAnchor)) = [] ++ b :: [] from rfl]
        rw [hrAtGo_reach t _ b [] [] a
          (by intro x hx; simp only [List.mem_singleton] at hx; rw [hx]; exact hat) htb]
        simp only [List.getLast_singleton, hstep]
    · have hlastq : (a :: b :: l₂).getLast? = l₂.getLast? := by
        rw [show a :: b :: l₂ = [a, b] ++ l₂ from rfl]
        exact List.getLast?_append_of_ne_nil [a, b] hl2
      obtain ⟨z, hz⟩ := Option.isSome_iff_exists.mp
        (List.getLast?_isSome.mpr hl2)
      have hzl : (a :: b :: l₂).getLast (List.cons_ne_nil a (b :: l₂)) = z := by
        have := List.getLast?_eq_getLast (a :: b :: l₂) (List.cons_ne_nil a (b :: l₂))
        rw [hlastq, hz] at this
        exact (Option.some.inj this).symm
      have hzmem : z ∈ l₂ := by
        have := List.getLast?_eq_getLast l₂ hl2
        rw [hz] at this
        exact (Option.some.inj this) ▸ List.getLast_mem hl2
      have hzgt : b.tSec < z.tSec := hbl₂ z hzmem
      rw [if_neg (by rw [hzl]; intro hle; linarith)]
      rw [show b :: l₂ = [] ++ b :: l₂ from rfl]
      rw [hrAtGo_reach t _ b l₂ [] a
        (by intro x hx; simp only [List.mem_singleton] at hx; rw [hx]; exact hat) htb]
      simp only [List.getLast_singleton, hstep]
  | cons h₁ l₁' =>
    simp only [List.cons_append]
    have hrest : (l₁' ++ a :: b :: l₂ : List HrAnchor) ≠ [] := by simp
    have hh₁ : h₁.tSec < a.tSec := hl₁ h₁ (by simp)
    simp only [hrAt]
    rw [if_neg hrest, if_neg (not_le.mpr (by linarith : h₁.tSec < t))]
    have hshape : h₁ :: (l₁' ++ a :: b :: l₂) = (h₁ :: l₁' ++ [a]) ++ (b :: l₂) := by
      simp
    have hlastq : (h₁ :: (l₁' ++ a :: b :: l₂)).getLast? = (b :: l₂).getLast? := by
      rw [hshape]
      exact List.getLast?_append_of_ne_nil _ (List.cons_ne_nil b l₂)
    obtain ⟨z, hz⟩ := Option.isSome_iff_exists.mp
      (List.getLast?_isSome.mpr (List.cons_ne_nil b l₂))
    have hzl : (h₁ :: (l₁' ++ a :: b :: l₂)).getLast
        (List.cons_ne_nil h₁ (l₁' ++ a :: b :: l₂)) = z := by
      have := List.getLast?_eq_getLast (h₁ :: (l₁' ++ a :: b :: l₂))
        (List.cons_ne_nil h₁ (l₁' ++ a :: b :: l₂))
      rw [hlastq, hz] at this
      exact (Option.some.inj this).symm
    have hgo : hrAtGo t z.hr h₁ (l₁' ++ a :: b :: l₂) = loopStep a b t := by
      rw [show l₁' ++ a :: b :: l₂ = (l₁' ++ [a]) ++ (b :: l₂) by simp]
      rw [hrAtGo_reach t z.hr b l₂ (l₁' ++ [a]) h₁ ?cond htb]
      case cond =>
        intro x hx
        rcases List.mem_cons.mp hx with rfl | hx'
        · linarith
        · rcases List.mem_append.mp hx' with hxl | hxa
          · have : x.tSec < a.tSec := hl₁ x (List.mem_cons_of_mem h₁ hxl)
            linarith
          · rw [List.mem_singleton.mp hxa]
            exact hat
      congr 1
      have hq : (h₁ :: (l₁' ++ [a])).getLast? = some a := by
        rw [show h₁ :: (l₁' ++ [a]) = (h₁ :: l₁') ++ [a] from rfl]
        exact List.getLast?_concat (h₁ :: l₁')
      have := List.getLast?_eq_getLast (h₁ :: (l₁' ++ [a]))
        (List.cons_ne_nil h₁ (l₁' ++ [a]))
      rw [hq] at this
      exact (Option.some.inj this.symm)
    by_cases hl2 : l₂ = []
    · subst hl2
      have hzb : z = b := by
        have := List.getLast?_eq_getLast [b] (List.cons_ne_nil b [])
        rw [hz] at this
        exact Option.some.inj this.symm ▸ rfl
      by_cases hbt : b.tSec ≤ t
      · rw [if_pos (by rw [hzl, hzb]; exact hbt)]
        rw [hzl, hzb, hb_interp (le_antisymm htb hbt)]
      · rw [if_neg (by rw [hzl, hzb]; exact hbt)]
        rw [hzl, hgo, hstep]
    · obtain ⟨y, hy⟩ := Option.isSome_iff_exists.mp (List.getLast?_isSome.mpr hl2)
      have hzy : z = y := by
        have h1 := List.getLast?_append_of_ne_nil [b] hl2
        rw [show [b] ++ l₂ = b :: l₂ from rfl, hz, hy] at h1
        exact Option.some.inj h1
      have hymem : y ∈ l₂ := by
        have := List.getLast?_eq_getLast l₂ hl2
        rw [hy] at this
        exact (Option.some.inj this) ▸ List.getLast_mem hl2
      have hygt : b.tSec < y.tSec := hbl₂ y hymem
      rw [if_neg (by rw [hzl, hzy]; intro hle; linarith)]
      rw [hzl, hgo, hstep]

/-- C2: with anchors sorted ascending, `hrAt` returns `none` on zero
anchors, the constant value on one anchor, the first anchor's value at or
before the first anchor, the last anchor's value at or after the last
anchor, exact linear interpolation (with the degenerate equal-timestamp
case) strictly between adjacent anchors, and is therefore monotonic between
any two adjacent anchors. -/
theorem claim_C2 (anchors : List HrAnchor)
    (hsort : List.Sorted (fun x y : HrAnchor => x.tSec < y.tSec) anchors) :
    (anchors = [] → ∀ t, hrAt anchors t = none) ∧
    (∀ a, anchors = [a] → ∀ t, hrAt anchors t = some a.hr) ∧
    (∀ a t, anchors.head? = some a → t ≤ a.tSec → hrAt anchors t = some a.hr) ∧
    (∀ z t, anchors.getLast? = some z → z.tSec ≤ t → hrAt anchors t = some z.hr) ∧
    (∀ l₁ a b l₂ t, anchors = l₁ ++ a :: b :: l₂ → a.tSec < t → t ≤ b.tSec →
      hrAt anchors t = some (interp a b t)) ∧
    (∀ l₁ a b l₂ t₁ t₂, anchors = l₁ ++ a :: b :: l₂ →
      a.tSec < t₁ → t₁ ≤ t₂ → t₂ ≤ b.tSec →
      ((a.hr ≤ b.hr → ∀ v₁ v₂, hrAt anchors t₁ = some v₁ →
          hrAt anchors t₂ = some v₂ → v₁ ≤ v₂) ∧
        (b.hr ≤ a.hr → ∀ v₁ v₂, hrAt anchors t₁ = some v₁ →
          hrAt anchors t₂ = some v₂ → v₂ ≤ v₁))) := by
  refine ⟨?_, ?_, ?_, ?_, ?_, ?_⟩
  · intro h t
    subst h
    rfl
  · intro a h t
    subst h
    rfl
  · intro a t hh ht
    cases anchors with
    | nil => simp at hh
    | cons a' rest =>
      obtain rfl : a' = a := by simpa using hh
      by_cases hr0 : rest = []
      · subst hr0
        rfl
      · simp only [hrAt]
        rw [if_neg hr0, if_pos ht]
  · intro z t hlast hzt
    cases anchors with
    | nil => simp at hlast
    | cons a rest =>
      by_cases hr0 : rest = []
      · subst hr0
        obtain rfl : a = z := by simpa using hlast
        rfl
      · have hz : (a :: rest).getLast (List.cons_ne_nil a rest) = z := by
          have := List.getLast?_eq_getLast (a :: rest) (List.cons_ne_nil a rest)
          rw [hlast] at this
          exact (Option.some.inj this).symm
        have hzmem : z ∈ rest := by
          rw [← hz, List.getLast_cons hr0]
          exact List.getLast_mem hr0
        have haz : a.tSec < z.tSec :=
          (List.pairwise_cons.mp hsort).1 z hzmem
        simp only [hrAt]
        rw [if_neg hr0, if_neg (by intro hta; linarith),
          if_pos (by rw [hz]; exact hzt), hz]
  · intro l₁ a b l₂ t heq hat htb
    subst heq
    exact hrAt_interp l₁ a b l₂ t hsort hat htb
  · intro l₁ a b l₂ t₁ t₂ heq hat1 h12 ht2b
    subst heq
    obtain ⟨pwl, pwr, hrel⟩ := List.pairwise_append.mp hsort
    have hab : a.tSec < b.tSec := (List.pairwise_cons.mp pwr).1 b (by simp)
    have hspan : (0 : ℚ) < b.tSec - a.tSec := by linarith
    have hv1 := hrAt_interp l₁ a b l₂ t₁ hsort hat1 (le_trans h12 ht2b)
    have hv2 := hrAt_interp l₁ a b l₂ t₂ hsort (lt_of_lt_of_le hat1 h12) ht2b
    have hne : ¬ b.tSec = a.tSec := by intro h; rw [h] at hab; exact lt_irrefl _ hab
    have hkey : interp a b t₂ - interp a b t₁ =
        (b.hr - a.hr) * ((t₂ - t₁) / (b.tSec - a.tSec)) := by
      unfold interp
      rw [if_neg hne, if_neg hne]
      field_simp
      ring
    constructor
    · intro hmono v₁ v₂ h1 h2
      rw [hv1] at h1
      rw [hv2] at h2
      obtain rfl := Option.some.inj h1
      obtain rfl := Option.some.inj h2
      have h0 : 0 ≤ (b.hr - a.hr) * ((t₂ - t₁) / (b.tSec - a.tSec)) :=
        mul_nonneg (by linarith)
          (div_nonneg (by linarith) (by linarith))
      linarith [hkey]
    · intro hmono v₁ v₂ h1 h2
      rw [hv1] at h1
      rw [hv2] at h2
      obtain rfl := Option.some.inj h1
      obtain rfl := Option.some.inj h2
      have h0 : (b.hr - a.hr) * ((t₂ - t₁) / (b.tSec - a.tSec)) ≤ 0 :=
        mul_nonpos_of_nonpos_of_nonneg (by linarith)
          (div_nonneg (by linarith) (by linarith))
      linarith [hkey]

/-- C2 witness: anchors `(0,100)` and `(10,140)` interpolate to exactly 120
at `t = 5`. -/
theorem claim_C2_witness :
    hrAt [⟨0, 100⟩, ⟨10, 140⟩] 5 = some 120 := by
  have h := (claim_C2 [⟨0, 100⟩, ⟨10, 140⟩]
    (by simp [List.sorted_cons])).2.2.2.2.1
    [] ⟨0, 100⟩ ⟨10, 140⟩ [] 5 rfl (by norm_num) (by norm_num)
  rw [h]
  unfold interp
  norm_num

end MW2TCX
